import Mathlib

/-!
Verification development for the DU-GLTF-Texture-Converter core
(`src/lib/DuMeshTransformer.ts`).

The embedding models:
  * glTF material records (display name + "extras" metadata map), the
    material catalog (`MaterialDefinitions`), and the material identity
    resolver (`getGameItemIdFromGltfMaterial`, `getGameMaterialFromItemId`,
    `getGameMaterialFromGltfMaterial`, `getGltfMaterialsWithGameMaterials`);
  * the construction-time normalization pass over the document's materials;
  * the processing queue (`queueTransform` / `queue` / `processQueue` /
    `saveToFile`) as a small-step interpreter over an explicit transformer
    state, emitting an observable event trace (invocations, enqueues, the
    final write);
  * the game-installation-directory configuration
    (`setGameInstallationDirectory`, `isGameInstallationDirectorySet`,
    `getDataDirectory`), with the filesystem supplied as a predicate.

JavaScript objects are modelled as association lists (`List (String × v)`):
lookup returns the first binding, and the spread-update
`\x7b ...obj, k: v \x7d` replaces the value of an existing key in place or
appends the binding at the end, as object spread does.  Metadata values are
modelled as strings (`item_id`, the only field the code reads, is read with
an `as string` cast).  Throwing is modelled by an `Option String` error
component carried next to the (possibly partially mutated) state, matching
the fact that a thrown exception leaves already-performed mutations on the
transformer object in place.
-/

namespace DuGltf

/-- Lookup of a key in a JavaScript-object-as-association-list: the first
binding for the key, `none` when the key is absent (`undefined`). -/
def objGet {v : Type} (o : List (String × v)) (k : String) : Option v :=
  (o.find? (fun kv => kv.1 = k)).map Prod.snd

/-- Spread-update `\x7b ...o, k: val \x7d` of a JavaScript object: when `k`
is already a key its bindings are replaced in place, otherwise the new
binding is appended at the end (JavaScript object-literal semantics). -/
def objSet {v : Type} (o : List (String × v)) (k : String) (val : v) :
    List (String × v) :=
  if o.any (fun kv => kv.1 = k) then
    o.map (fun kv => if kv.1 = k then (k, val) else kv)
  else
    o ++ [(k, val)]

/-- JavaScript `a || b` on a possibly-undefined string `a`: both
`undefined` and the empty string are falsy and select `b`. -/
def jsStrOr : Option String → String → String
  | some s, b => if s = "" then b else s
  | none, b => b

/-- A catalog entry (`MaterialDefinition` in `types.ts`): a display title
plus arbitrary further attributes. -/
structure MaterialDefinition where
  title : String
  attributes : List (String × String)
deriving DecidableEq

/-- The material catalog (`MaterialDefinitions`): a JavaScript object
mapping game item ids to material definitions. -/
structure MaterialDefinitions where
  items : List (String × MaterialDefinition)
deriving DecidableEq

/-- A glTF material record: a mutable display name plus the mutable
"extras" metadata object. -/
structure Material where
  name : String
  extras : List (String × String)
deriving DecidableEq

/-- The glTF document, reduced to the part the core touches: its material
records, in the document's native order (`getRoot().listMaterials()`). -/
structure GltfDocument where
  materials : List Material
deriving DecidableEq

/-- A resolved pairing of a glTF material with its game material
(`MaterialPair` in `types.ts`). -/
structure MaterialPair where
  material : Material
  gameMaterial : MaterialDefinition
deriving DecidableEq

/-- Line 89-91: `return (material.getExtras()['item_id'] as string) ||
material.getName();`. -/
def getGameItemIdFromGltfMaterial (material : Material) : String :=
  jsStrOr (objGet material.extras "item_id") material.name

/-- Line 96-98: `return this.getMaterialDefinitions().items[itemId] ||
null;` — the transformer's catalog is passed explicitly. -/
def getGameMaterialFromItemId (defs : MaterialDefinitions) (itemId : String) :
    Option MaterialDefinition :=
  objGet defs.items itemId

/-- Line 103-107: composition of the two lookups. -/
def getGameMaterialFromGltfMaterial (defs : MaterialDefinitions)
    (material : Material) : Option MaterialDefinition :=
  getGameMaterialFromItemId defs (getGameItemIdFromGltfMaterial material)

/-- Line 112-123: map each document material to its pair (or `null`), then
filter out the `null`s. -/
def getGltfMaterialsWithGameMaterials (defs : MaterialDefinitions)
    (doc : GltfDocument) : List MaterialPair :=
  (doc.materials.map (fun material =>
    match getGameMaterialFromGltfMaterial defs material with
    | some gameMaterial =>
        some { material := material, gameMaterial := gameMaterial }
    | none => none)).filterMap id

/-- Lines 227-243, body of the constructor's `forEach`: compute the item id,
resolve it when truthy, and when both id and resolution are truthy rename
the material to the catalog title and stamp `item_id` into the extras via
object spread. -/
def normalizeMaterial (defs : MaterialDefinitions) (m : Material) : Material :=
  let itemId := getGameItemIdFromGltfMaterial m
  let itemMaterial : Option MaterialDefinition :=
    if itemId ≠ "" then getGameMaterialFromItemId defs itemId else none
  match itemMaterial with
  | some gm =>
      if itemId ≠ "" then
        { name := gm.title, extras := objSet m.extras "item_id" itemId }
      else m
  | none => m

/-- Lines 226-243: the construction-time normalization pass, applied to
every material of the document. -/
def normalizeDocument (defs : MaterialDefinitions) (doc : GltfDocument) :
    GltfDocument :=
  { materials := doc.materials.map (normalizeMaterial defs) }

/-- An opaque JavaScript value passed as a command argument (`any`):
either an atomic value (modelled as a string payload) or an array of
values.  Arrays matter because `queueTransform` forwards its collected
rest-argument array as a single value. -/
inductive JsValue where
  | str (s : String)
  | arr (elems : List JsValue)

/-- The shared context handed to every command on invocation (line 64):
the transformer's current document plus a reference to the transformer
itself (a single session, so the reference is a unit marker). -/
structure TransformContext where
  document : GltfDocument
  transformer : Unit
deriving DecidableEq

/-- The body of a queued command, as the effects a command can perform on
the transformer it receives through the context: finish, throw, mutate the
shared document, enqueue a further command through `queueTransform`, or
sequence two effects.  `enqueueCmd` stores the function together with the
argument array handed to `queueTransform`. -/
inductive CmdAction where
  | done
  | throwErr (message : String)
  | setDocument (d : GltfDocument)
  | enqueueCmd (fn : TransformContext → List JsValue → CmdAction)
      (args : List JsValue)
  | andThen (first next : CmdAction)

/-- `ProcessingQueueCommandFunction`: a command function receives the
shared context and its rest-parameter argument list, and performs some
effects. -/
def ProcessingQueueCommandFunction : Type :=
  TransformContext → List JsValue → CmdAction

/-- `ProcessingQueueCommand`: the stored pair of function and argument
array (lines 45-48). -/
structure ProcessingQueueCommand where
  fn : ProcessingQueueCommandFunction
  args : List JsValue

/-- The `DuMeshTransformer` instance state: its pending command queue, the
optional game installation path, the (mutable, shared) glTF document and
the immutable material catalog. -/
structure DuMeshTransformer where
  pendingCommands : List ProcessingQueueCommand
  gameInstallationPath : Option String
  gltfDocument : GltfDocument
  materialDefinitions : MaterialDefinitions

/-- Lines 43-52, `queue(command, ...args)`: push `\x7b fn, args \x7d` onto
the pending queue and return the instance.  `args` here is the list the
rest parameter collected. -/
def queue (s : DuMeshTransformer) (command : ProcessingQueueCommandFunction)
    (args : List JsValue) : DuMeshTransformer :=
  { s with
    pendingCommands := s.pendingCommands ++ [{ fn := command, args := args }] }

/-- Lines 36-38, `queueTransform(command, ...args)`: calls
`this.queue(command, args)`, passing the collected array `args` as a single
positional argument — so `queue`'s own rest parameter collects it into the
one-element list `[args]`, and the stored argument list is
`[JsValue.arr args]`. -/
def queueTransform (s : DuMeshTransformer)
    (command : ProcessingQueueCommandFunction) (args : List JsValue) :
    DuMeshTransformer :=
  queue s command [JsValue.arr args]

/-- One element of the argument array built at line 64,
`[\x7b document, transformer \x7d, ...command.args]`: the context object
or one of the stored arguments. -/
inductive CallArg where
  | context (c : TransformContext)
  | value (v : JsValue)

/-- An observable event of a queue drain or save: a command function being
applied to an argument array, a command being pushed onto the pending
queue, or the document being written to a file. -/
inductive QueueEvent where
  | invoked (fn : ProcessingQueueCommandFunction) (argv : List CallArg)
  | enqueued (cmd : ProcessingQueueCommand)
  | wrote (file : String)

/-- The invocation events of a trace, with the argument array each function
received. -/
def invocationsOf (evs : List QueueEvent) :
    List (ProcessingQueueCommandFunction × List CallArg) :=
  evs.filterMap (fun e =>
    match e with
    | QueueEvent.invoked fn argv => some (fn, argv)
    | _ => none)

/-- The commands pushed onto the pending queue during a trace, in order. -/
def enqueuedOf (evs : List QueueEvent) : List ProcessingQueueCommand :=
  evs.filterMap (fun e =>
    match e with
    | QueueEvent.enqueued c => some c
    | _ => none)

/-- Sequencing of two awaited effectful steps: when the first step did not
throw, continue from its state and concatenate the event traces; when it
threw, stop there and propagate the error together with the state reached
so far. -/
def seqResult
    (first : List QueueEvent × DuMeshTransformer × Option String)
    (next : DuMeshTransformer →
      List QueueEvent × DuMeshTransformer × Option String) :
    List QueueEvent × DuMeshTransformer × Option String :=
  match first with
  | (ev, s1, none) => (ev ++ (next s1).1, (next s1).2)
  | (ev, s1, some e) => (ev, s1, some e)

/-- Run a command body over the transformer state, producing the emitted
events, the state after the body (mutations before a throw persist), and
the propagated error, if any. -/
def runAction : CmdAction → DuMeshTransformer →
    List QueueEvent × DuMeshTransformer × Option String
  | CmdAction.done, s => ([], s, none)
  | CmdAction.throwErr msg, s => ([], s, some msg)
  | CmdAction.setDocument d, s => ([], { s with gltfDocument := d }, none)
  | CmdAction.enqueueCmd fn args, s =>
      ([QueueEvent.enqueued { fn := fn, args := [JsValue.arr args] }],
        queueTransform s fn args, none)
  | CmdAction.andThen a b, s =>
      seqResult (runAction a s) (runAction b)

/-- The context object literal of line 64, built from the state at call
time. -/
def makeContext (s : DuMeshTransformer) : TransformContext :=
  { document := s.gltfDocument, transformer := () }

/-- Line 64, `await command.fn.apply(this, [\x7b document, transformer
\x7d, ...command.args])`: build the argument array, apply the stored
function to the context and its stored arguments, and run the resulting
effects. -/
def invokeCommand (c : ProcessingQueueCommand) (s : DuMeshTransformer) :
    List QueueEvent × DuMeshTransformer × Option String :=
  let ctx := makeContext s
  let argv := CallArg.context ctx :: c.args.map CallArg.value
  match runAction (c.fn ctx c.args) s with
  | (ev, s1, r) => (QueueEvent.invoked c.fn argv :: ev, s1, r)

/-- Lines 62-65: execute a snapshot of commands in sequence, stopping at
the first error, which propagates with the state reached so far. -/
def runCommandList : List ProcessingQueueCommand → DuMeshTransformer →
    List QueueEvent × DuMeshTransformer × Option String
  | [], s => ([], s, none)
  | c :: rest, s => seqResult (invokeCommand c s) (runCommandList rest)

/-- Lines 57-66, `processQueue`: snapshot the pending commands, clear the
queue, then execute the snapshot in order. -/
def processQueue (s : DuMeshTransformer) :
    List QueueEvent × DuMeshTransformer × Option String :=
  runCommandList s.pendingCommands { s with pendingCommands := [] }

/-- Lines 171-199, `saveToFile`: drain the queue first; an error thrown by
the drain propagates and the document is not written.  The write itself is
delegated to the external I/O library and is modelled as a `wrote`
event. -/
def saveToFile (s : DuMeshTransformer) (file : String) :
    List QueueEvent × DuMeshTransformer × Option String :=
  match processQueue s with
  | (ev, s1, none) => (ev ++ [QueueEvent.wrote file], s1, none)
  | (ev, s1, some e) => (ev, s1, some e)

/-- `path.join(a, b)` for the fixed path literals used by the code; the
separator-normalization of `path.join` is elided. -/
def pathJoin (a b : String) : String :=
  a ++ "/" ++ b

/-- Lines 135-138: `!!this.gameInstallationPath` — `null` and the empty
string are falsy. -/
def isGameInstallationDirectorySet (s : DuMeshTransformer) : Bool :=
  match s.gameInstallationPath with
  | none => false
  | some p => p != ""

/-- Lines 143-154, `setGameInstallationDirectory`: throw when
`directory/Game/data` does not exist on the supplied filesystem (leaving
the state untouched), otherwise store the directory and return the
instance for chaining. -/
def setGameInstallationDirectory (fileExists : String → Bool)
    (s : DuMeshTransformer) (directory : String) :
    DuMeshTransformer × Option String :=
  if !(fileExists (pathJoin (pathJoin directory "Game") "data")) then
    (s, some ("Invalid game directory: " ++ directory))
  else
    ({ s with gameInstallationPath := some directory }, none)

/-- Lines 159-164, `getDataDirectory`: the installation path joined with
`Game/data` when one is set, else `null`. -/
def getDataDirectory (s : DuMeshTransformer) : Option String :=
  if isGameInstallationDirectorySet s then
    some (pathJoin (pathJoin (s.gameInstallationPath.getD "") "Game") "data")
  else
    none

/-- Lines 213-244, the constructor: a fresh transformer whose document has
been run through the normalization pass.  The Windows-only probing of a
default installation directory (lines 217-224) is environment I/O and is
elided; the configuration claims quantify over arbitrary states instead. -/
def constructTransformer (doc : GltfDocument) (defs : MaterialDefinitions) :
    DuMeshTransformer :=
  { pendingCommands := []
    gameInstallationPath := none
    gltfDocument := normalizeDocument defs doc
    materialDefinitions := defs }

/-! ### Concrete fixtures used by witnesses and counterexamples -/

/-- An empty glTF document. -/
def emptyDoc : GltfDocument := { materials := [] }

/-- An empty material catalog. -/
def emptyDefs : MaterialDefinitions := { items := [] }

/-- A fresh transformer over the empty document and catalog. -/
def baseTransformer : DuMeshTransformer :=
  { pendingCommands := []
    gameInstallationPath := none
    gltfDocument := emptyDoc
    materialDefinitions := emptyDefs }

/-- A command function that does nothing. -/
def noopFn : ProcessingQueueCommandFunction := fun _ _ => CmdAction.done

/-- A command function that enqueues a no-op command through the
transformer reference. -/
def enqueueingFn : ProcessingQueueCommandFunction :=
  fun _ _ => CmdAction.enqueueCmd noopFn []

/-- A command function that throws. -/
def failingFn : ProcessingQueueCommandFunction :=
  fun _ _ => CmdAction.throwErr "boom"

/-- The stored form of a no-op command enqueued with no arguments via
`queueTransform`. -/
def cmdNoop : ProcessingQueueCommand :=
  { fn := noopFn, args := [JsValue.arr []] }

/-- The trace of draining a single no-op command queued via
`queueTransform` with one argument. -/
def traceC1 : List QueueEvent :=
  [QueueEvent.invoked noopFn
    [CallArg.context (makeContext baseTransformer),
      CallArg.value (JsValue.arr [JsValue.str "a1"])]]

/-- A transformer holding one queued command that enqueues another. -/
def sC2 : DuMeshTransformer := queueTransform baseTransformer enqueueingFn []

/-- The trace of draining `sC2`. -/
def traceC2 : List QueueEvent :=
  [QueueEvent.invoked enqueueingFn
    [CallArg.context (makeContext baseTransformer),
      CallArg.value (JsValue.arr [])],
    QueueEvent.enqueued cmdNoop]

/-- The state after draining `sC2`: only the nested enqueue remains. -/
def stateC2 : DuMeshTransformer :=
  { baseTransformer with pendingCommands := [cmdNoop] }

/-- A transformer holding a throwing command followed by a no-op. -/
def sC3 : DuMeshTransformer :=
  queueTransform (queueTransform baseTransformer failingFn []) noopFn []

/-- The trace of draining `sC3`: only the throwing command is invoked. -/
def traceC3 : List QueueEvent :=
  [QueueEvent.invoked failingFn
    [CallArg.context (makeContext baseTransformer),
      CallArg.value (JsValue.arr [])]]

/-- A catalog entry titled Steel Plate. -/
def steelDef : MaterialDefinition := { title := "Steel Plate", attributes := [] }

/-- A one-entry catalog mapping id1 to the Steel Plate definition. -/
def catalogW : MaterialDefinitions := { items := [("id1", steelDef)] }

/-- A material whose `item_id` extra resolves in `catalogW`. -/
def steelMat : Material :=
  { name := "m1", extras := [("item_id", "id1"), ("roughness", "0.5")] }

/-- A material with no resolvable id. -/
def unknownMat : Material := { name := "unknown", extras := [] }

/-- A two-material document: one resolvable, one not. -/
def docW : GltfDocument := { materials := [steelMat, unknownMat] }

/-- A material with a non-empty `item_id` extra and a fallback name. -/
def ironMat : Material :=
  { name := "fallback", extras := [("item_id", "iron")] }

/-- A filesystem on which exactly `C:/DU/Game/data` exists. -/
def fsW : String → Bool := fun p => p == "C:/DU/Game/data"

/-- A transformer with a configured installation directory. -/
def sInstall : DuMeshTransformer :=
  { baseTransformer with gameInstallationPath := some "C:/DU" }

/-! ### Lemmas about the JavaScript-object model -/

lemma find?_map_replace {v : Type} (o : List (String × v)) (k : String)
    (val : v) (h : o.any (fun kv => kv.1 = k) = true) :
    (o.map (fun kv => if kv.1 = k then (k, val) else kv)).find?
        (fun kv => kv.1 = k) = some (k, val) := by
  induction o with
  | nil => simp at h
  | cons kv o ih =>
      by_cases hk : kv.1 = k
      · simp [hk]
      · have ho : o.any (fun kv => kv.1 = k) = true := by
          simp [List.any_cons, hk] at h
          simpa using h
        simpa [hk] using ih ho

lemma find?_self_append {v : Type} (o : List (String × v)) (k : String)
    (val : v) (h : o.any (fun kv => kv.1 = k) = false) :
    (o ++ [(k, val)]).find? (fun kv => kv.1 = k) = some (k, val) := by
  induction o with
  | nil =>
      rw [List.nil_append]
      exact List.find?_cons_of_pos _ (by simp)
  | cons kv o ih =>
      rw [List.any_cons, Bool.or_eq_false_iff] at h
      rw [List.cons_append, List.find?_cons_of_neg _ (by simp [h.1])]
      exact ih h.2

lemma objGet_objSet_self {v : Type} (o : List (String × v)) (k : String)
    (val : v) : objGet (objSet o k val) k = some val := by
  unfold objGet objSet
  by_cases h : o.any (fun kv => kv.1 = k) = true
  · rw [if_pos h, find?_map_replace o k val h]
    rfl
  · rw [if_neg h, find?_self_append o k val (by rwa [Bool.not_eq_true] at h)]
    rfl

lemma find?_map_replace_ne {v : Type} (o : List (String × v))
    (k k' : String) (val : v) (h : ¬ k' = k) :
    (o.map (fun kv => if kv.1 = k then (k, val) else kv)).find?
        (fun kv => kv.1 = k')
      = o.find? (fun kv => kv.1 = k') := by
  have hkk : ¬ k = k' := fun hh => h hh.symm
  induction o with
  | nil => rfl
  | cons kv o ih =>
      rw [List.map_cons]
      by_cases hk : kv.1 = k
      · rw [if_pos hk]
        rw [List.find?_cons_of_neg _ (by simp [hkk])]
        rw [List.find?_cons_of_neg _ (by simp [hk, hkk])]
        exact ih
      · rw [if_neg hk]
        by_cases hk' : kv.1 = k'
        · rw [List.find?_cons_of_pos _ (by simp [hk'])]
          rw [List.find?_cons_of_pos _ (by simp [hk'])]
        · rw [List.find?_cons_of_neg _ (by simp [hk'])]
          rw [List.find?_cons_of_neg _ (by simp [hk'])]
          exact ih

lemma find?_append_single_ne {v : Type} (o : List (String × v))
    (k k' : String) (val : v) (h : ¬ k' = k) :
    (o ++ [(k, val)]).find? (fun kv => kv.1 = k')
      = o.find? (fun kv => kv.1 = k') := by
  have hkk : ¬ k = k' := fun hh => h hh.symm
  induction o with
  | nil =>
      rw [List.nil_append]
      rw [List.find?_cons_of_neg _ (by simp [hkk])]
  | cons kv o ih =>
      rw [List.cons_append]
      by_cases hk' : kv.1 = k'
      · rw [List.find?_cons_of_pos _ (by simp [hk'])]
        rw [List.find?_cons_of_pos _ (by simp [hk'])]
      · rw [List.find?_cons_of_neg _ (by simp [hk'])]
        rw [List.find?_cons_of_neg _ (by simp [hk'])]
        exact ih

lemma objGet_objSet_ne {v : Type} (o : List (String × v)) (k k' : String)
    (val : v) (h : ¬ k' = k) :
    objGet (objSet o k val) k' = objGet o k' := by
  unfold objGet objSet
  by_cases ha : o.any (fun kv => kv.1 = k) = true
  · rw [if_pos ha, find?_map_replace_ne o k k' val h]
  · rw [if_neg ha, find?_append_single_ne o k k' val h]

lemma any_objSet_self {v : Type} (o : List (String × v)) (k : String)
    (val : v) : (objSet o k val).any (fun kv => kv.1 = k) = true := by
  unfold objSet
  by_cases ha : o.any (fun kv => kv.1 = k) = true
  · rw [if_pos ha]
    induction o with
    | nil => simp at ha
    | cons kv o ih =>
        by_cases hk : kv.1 = k
        · simp [hk]
        · simp [List.any_cons, hk] at ha
          simpa [hk] using ih (by simpa using ha)
  · rw [if_neg ha]
    simp

lemma objSet_objSet_self {v : Type} (o : List (String × v)) (k : String)
    (val : v) : objSet (objSet o k val) k val = objSet o k val := by
  have hrepl : (fun (kv : String × v) => if kv.1 = k then (k, val) else kv) ∘
      (fun kv => if kv.1 = k then (k, val) else kv)
      = fun kv => if kv.1 = k then (k, val) else kv := by
    funext kv
    by_cases hk : kv.1 = k
    · simp [hk]
    · simp [hk]
  conv_lhs => rw [objSet, if_pos (any_objSet_self o k val)]
  unfold objSet
  by_cases ha : o.any (fun kv => kv.1 = k) = true
  · rw [if_pos ha, List.map_map, hrepl]
  · rw [if_neg ha, List.map_append]
    have ho : o.map (fun kv => if kv.1 = k then (k, val) else kv) = o := by
      have : ∀ kv ∈ o, (if kv.1 = k then (k, val) else kv) = kv := by
        intro kv hkv
        have : ¬ kv.1 = k := by
          intro hk
          have : o.any (fun kv => kv.1 = k) = true := by
            simp only [List.any_eq_true]
            exact ⟨kv, hkv, by simpa using hk⟩
          exact ha this
        simp [this]
      calc o.map (fun kv => if kv.1 = k then (k, val) else kv)
          = o.map id := List.map_congr_left this
        _ = o := List.map_id o
    rw [ho]
    simp

/-! ### Lemmas about the normalization pass -/

lemma normalizeMaterial_unresolved (defs : MaterialDefinitions) (m : Material)
    (h : getGameItemIdFromGltfMaterial m = "" ∨
      getGameMaterialFromItemId defs (getGameItemIdFromGltfMaterial m) = none) :
    normalizeMaterial defs m = m := by
  unfold normalizeMaterial
  rcases h with h | h
  · simp [h]
  · by_cases h0 : getGameItemIdFromGltfMaterial m = ""
    · simp [h0]
    · simp [h0, h]

lemma normalizeMaterial_resolved (defs : MaterialDefinitions) (m : Material)
    (gm : MaterialDefinition)
    (h1 : ¬ getGameItemIdFromGltfMaterial m = "")
    (h2 : getGameMaterialFromItemId defs (getGameItemIdFromGltfMaterial m)
      = some gm) :
    normalizeMaterial defs m
      = { name := gm.title,
          extras := objSet m.extras "item_id"
            (getGameItemIdFromGltfMaterial m) } := by
  unfold normalizeMaterial
  simp [h1, h2]

lemma getGameItemId_of_stamped (m : Material) (itemId : String)
    (h1 : ¬ itemId = "") (title : String) :
    getGameItemIdFromGltfMaterial
      { name := title, extras := objSet m.extras "item_id" itemId }
      = itemId := by
  show jsStrOr (objGet (objSet m.extras "item_id" itemId) "item_id") title
    = itemId
  rw [objGet_objSet_self]
  simp [jsStrOr, h1]

lemma normalizeMaterial_idem (defs : MaterialDefinitions) (m : Material) :
    normalizeMaterial defs (normalizeMaterial defs m)
      = normalizeMaterial defs m := by
  by_cases h1 : getGameItemIdFromGltfMaterial m = ""
  · rw [normalizeMaterial_unresolved defs m (Or.inl h1)]
    exact normalizeMaterial_unresolved defs m (Or.inl h1)
  · cases h2 : getGameMaterialFromItemId defs
        (getGameItemIdFromGltfMaterial m) with
    | none =>
        rw [normalizeMaterial_unresolved defs m (Or.inr h2)]
        exact normalizeMaterial_unresolved defs m (Or.inr h2)
    | some gm =>
        rw [normalizeMaterial_resolved defs m gm h1 h2]
        have hid := getGameItemId_of_stamped m
          (getGameItemIdFromGltfMaterial m) h1 gm.title
        have h2b : getGameMaterialFromItemId defs
            (getGameItemIdFromGltfMaterial
              { name := gm.title,
                extras := objSet m.extras "item_id"
                  (getGameItemIdFromGltfMaterial m) }) = some gm := by
          rw [hid]
          exact h2
        rw [normalizeMaterial_resolved defs _ gm (by rw [hid]; exact h1) h2b]
        rw [hid]
        exact congrArg (Material.mk gm.title)
          (objSet_objSet_self m.extras "item_id"
            (getGameItemIdFromGltfMaterial m))

/-! ### Lemmas about the processing queue -/

/-- The invocation record line 64 produces for a command `c` when the
transformer's document is `d` at call time: the stored function applied to
the context object followed by exactly the stored arguments. -/
def invocationFor (c : ProcessingQueueCommand) (d : GltfDocument) :
    ProcessingQueueCommandFunction × List CallArg :=
  (c.fn, CallArg.context { document := d, transformer := () }
    :: c.args.map CallArg.value)

lemma invocationsOf_append (a b : List QueueEvent) :
    invocationsOf (a ++ b) = invocationsOf a ++ invocationsOf b :=
  List.filterMap_append a b _

lemma enqueuedOf_append (a b : List QueueEvent) :
    enqueuedOf (a ++ b) = enqueuedOf a ++ enqueuedOf b :=
  List.filterMap_append a b _

lemma seqResult_err (ev : List QueueEvent) (s1 : DuMeshTransformer)
    (e : String)
    (next : DuMeshTransformer →
      List QueueEvent × DuMeshTransformer × Option String) :
    seqResult (ev, s1, some e) next = (ev, s1, some e) := rfl

lemma seqResult_ok (ev : List QueueEvent) (s1 : DuMeshTransformer)
    (next : DuMeshTransformer →
      List QueueEvent × DuMeshTransformer × Option String) :
    seqResult (ev, s1, none) next = (ev ++ (next s1).1, (next s1).2) := rfl

lemma runAction_invocations (a : CmdAction) (s : DuMeshTransformer) :
    invocationsOf (runAction a s).1 = [] := by
  induction a generalizing s with
  | done => rfl
  | throwErr msg => rfl
  | setDocument d => rfl
  | enqueueCmd fn args => rfl
  | andThen a b iha ihb =>
      have ha := iha s
      rcases hA : runAction a s with ⟨ev, s1, r⟩
      rw [hA] at ha
      cases r with
      | none =>
          have hb := ihb s1
          rw [runAction, hA, seqResult_ok, invocationsOf_append, ha, hb]
          rfl
      | some e =>
          rw [runAction, hA, seqResult_err]
          exact ha

lemma runAction_pending (a : CmdAction) (s : DuMeshTransformer) :
    (runAction a s).2.1.pendingCommands
      = s.pendingCommands ++ enqueuedOf (runAction a s).1 := by
  induction a generalizing s with
  | done => simp [runAction, enqueuedOf]
  | throwErr msg => simp [runAction, enqueuedOf]
  | setDocument d => simp [runAction, enqueuedOf]
  | enqueueCmd fn args =>
      show (queueTransform s fn args).pendingCommands
        = s.pendingCommands ++ enqueuedOf (runAction (CmdAction.enqueueCmd fn args) s).1
      rfl
  | andThen a b iha ihb =>
      have ha := iha s
      rcases hA : runAction a s with ⟨ev, s1, r⟩
      rw [hA] at ha
      dsimp only at ha
      cases r with
      | none =>
          have hb := ihb s1
          rcases hB : runAction b s1 with ⟨ev2, s2, r2⟩
          rw [hB] at hb
          dsimp only at hb
          rw [runAction, hA, seqResult_ok, hB]
          dsimp only
          rw [enqueuedOf_append, hb, ha, List.append_assoc]
      | some e =>
          rw [runAction, hA, seqResult_err]
          exact ha

lemma invocationsOf_cons_invoked (fn : ProcessingQueueCommandFunction)
    (argv : List CallArg) (evs : List QueueEvent) :
    invocationsOf (QueueEvent.invoked fn argv :: evs)
      = (fn, argv) :: invocationsOf evs := rfl

lemma enqueuedOf_cons_invoked (fn : ProcessingQueueCommandFunction)
    (argv : List CallArg) (evs : List QueueEvent) :
    enqueuedOf (QueueEvent.invoked fn argv :: evs) = enqueuedOf evs := rfl

/-- Master lemma about executing a snapshot of commands: the pending queue
afterwards is the starting queue extended by exactly the commands enqueued
during execution (in order), and the executed invocations are exactly one
per snapshot command, in snapshot order, each applying the stored function
to the call-time context followed by the stored arguments; all of the
snapshot is executed when no command threw. -/
lemma runCommandList_spec (q : List ProcessingQueueCommand)
    (s : DuMeshTransformer) :
    (runCommandList q s).2.1.pendingCommands
        = s.pendingCommands ++ enqueuedOf (runCommandList q s).1 ∧
    ∃ docs : List GltfDocument,
      docs.length ≤ q.length ∧
      ((runCommandList q s).2.2 = none → docs.length = q.length) ∧
      invocationsOf (runCommandList q s).1
        = ((q.take docs.length).zip docs).map
            (fun p => invocationFor p.1 p.2) := by
  induction q generalizing s with
  | nil =>
      refine ⟨by simp [runCommandList, enqueuedOf], [], by simp, by simp, ?_⟩
      simp [runCommandList, invocationsOf]
  | cons c rest ih =>
      have hinv := runAction_invocations (c.fn (makeContext s) c.args) s
      have hpend := runAction_pending (c.fn (makeContext s) c.args) s
      rcases hA : runAction (c.fn (makeContext s) c.args) s with ⟨evA, sA, rA⟩
      rw [hA] at hinv hpend
      dsimp only at hinv hpend
      have hinvoke : invokeCommand c s
          = (QueueEvent.invoked c.fn
              (CallArg.context (makeContext s) :: c.args.map CallArg.value)
              :: evA, sA, rA) := by
        simp only [invokeCommand, hA]
      cases rA with
      | none =>
          obtain ⟨ihp, docs, hlen, hfull, hinvs⟩ := ih sA
          rcases hR : runCommandList rest sA with ⟨ev2, s2, r2⟩
          rw [hR] at ihp hfull hinvs
          dsimp only at ihp hfull hinvs
          rw [runCommandList, hinvoke, seqResult_ok, hR]
          dsimp only
          refine ⟨?_, s.gltfDocument :: docs, ?_, ?_, ?_⟩
          · rw [List.cons_append, enqueuedOf_cons_invoked, enqueuedOf_append,
              ihp, hpend, List.append_assoc]
          · simpa using Nat.succ_le_succ hlen
          · intro h
            have := hfull h
            simp [this]
          · rw [List.cons_append, invocationsOf_cons_invoked,
              invocationsOf_append, hinv, List.nil_append, hinvs,
              List.length_cons, List.take_succ_cons, List.zip_cons_cons,
              List.map_cons]
            rfl
      | some e =>
          rw [runCommandList, hinvoke, seqResult_err]
          dsimp only
          refine ⟨?_, [s.gltfDocument], ?_, ?_, ?_⟩
          · rw [enqueuedOf_cons_invoked]
            exact hpend
          · simp
          · intro h
            exact absurd h (Option.some_ne_none e)
          · rw [invocationsOf_cons_invoked, hinv]
            rfl

lemma normalizeMaterial_resolved_effects (defs : MaterialDefinitions)
    (m : Material) (gm : MaterialDefinition)
    (h1 : ¬ getGameItemIdFromGltfMaterial m = "")
    (h2 : getGameMaterialFromItemId defs (getGameItemIdFromGltfMaterial m)
      = some gm) :
    (normalizeMaterial defs m).name = gm.title ∧
    objGet (normalizeMaterial defs m).extras "item_id"
        = some (getGameItemIdFromGltfMaterial m) ∧
    ∀ k, ¬ k = "item_id" →
      objGet (normalizeMaterial defs m).extras k = objGet m.extras k := by
  rw [normalizeMaterial_resolved defs m gm h1 h2]
  refine ⟨rfl, ?_, ?_⟩
  · exact objGet_objSet_self m.extras "item_id"
      (getGameItemIdFromGltfMaterial m)
  · intro k hk
    exact objGet_objSet_ne m.extras "item_id" k
      (getGameItemIdFromGltfMaterial m) hk

lemma pairs_filterMap (defs : MaterialDefinitions) (mats : List Material) :
    ((mats.map (fun material =>
      match getGameMaterialFromGltfMaterial defs material with
      | some gameMaterial =>
          some { material := material, gameMaterial := gameMaterial }
      | none => none)).filterMap id)
      = mats.filterMap (fun m =>
          Option.map
            (fun gm => ({ material := m, gameMaterial := gm } : MaterialPair))
            (getGameMaterialFromGltfMaterial defs m)) := by
  induction mats with
  | nil => rfl
  | cons m mats ih =>
      rw [List.map_cons, List.filterMap_cons, List.filterMap_cons]
      cases h : getGameMaterialFromGltfMaterial defs m with
      | some gm => simp [h, ih]
      | none => simp [h, ih]

lemma pairs_map_material (defs : MaterialDefinitions) (mats : List Material) :
    ((mats.filterMap (fun m =>
        Option.map
          (fun gm => ({ material := m, gameMaterial := gm } : MaterialPair))
          (getGameMaterialFromGltfMaterial defs m))).map
      (fun p => p.material))
      = mats.filter
          (fun m => (getGameMaterialFromGltfMaterial defs m).isSome) := by
  induction mats with
  | nil => rfl
  | cons m mats ih =>
      rw [List.filterMap_cons, List.filter_cons]
      cases h : getGameMaterialFromGltfMaterial defs m with
      | some gm => simp [h, ih]
      | none => simp [h, ih]

/-! ### Claim theorems -/

/-- C1 (counterexample): the claim as stated is false.  For a command
enqueued via queueTransform(fn, a1), the drain does not invoke fn with the
context followed by the argument a1: queueTransform forwards its collected
argument array as a single positional argument to the internal queue
method, so the invocation's argument array carries the one-element wrapped
array instead. -/
theorem queueTransform_args_wrapped_cex :
    ¬ invocationsOf
        (processQueue
          (queueTransform baseTransformer noopFn [JsValue.str "a1"])).1
      = [(noopFn, CallArg.context (makeContext baseTransformer)
          :: [JsValue.str "a1"].map CallArg.value)] := by
  intro h
  have hL : invocationsOf
      (processQueue
        (queueTransform baseTransformer noopFn [JsValue.str "a1"])).1
      = [(noopFn, [CallArg.context (makeContext baseTransformer),
          CallArg.value (JsValue.arr [JsValue.str "a1"])])] := rfl
  rw [hL] at h
  simp at h

/-- C1 (amended): a command enqueued via queueTransform(fn, a1, ..., an)
is stored with the single argument array [a1, ..., an]; when the queue is
drained successfully, the invocation at that command's position applies fn
to the shared context (current document plus transformer reference)
followed by exactly that stored single argument, the array [a1, ..., an]. -/
theorem queueTransform_drain_invocation (s : DuMeshTransformer)
    (fn : ProcessingQueueCommandFunction) (args : List JsValue)
    (ev : List QueueEvent) (s1 : DuMeshTransformer) (i : Nat)
    (hcmd : s.pendingCommands[i]?
      = some { fn := fn, args := [JsValue.arr args] })
    (hrun : processQueue s = (ev, s1, none)) :
    (queueTransform s fn args).pendingCommands
        = s.pendingCommands ++ [{ fn := fn, args := [JsValue.arr args] }] ∧
    ∃ d : GltfDocument,
      (invocationsOf ev)[i]?
        = some (fn, [CallArg.context { document := d, transformer := () },
            CallArg.value (JsValue.arr args)]) := by
  refine ⟨rfl, ?_⟩
  have hrun' : runCommandList s.pendingCommands { s with pendingCommands := [] }
      = (ev, s1, none) := hrun
  obtain ⟨hp, docs, hlen, hfull, hinvs⟩ :=
    runCommandList_spec s.pendingCommands { s with pendingCommands := [] }
  rw [hrun'] at hfull hinvs
  dsimp only at hfull hinvs
  have hdl : docs.length = s.pendingCommands.length := hfull rfl
  rw [hdl, List.take_length] at hinvs
  obtain ⟨hi, hcmd'⟩ := List.getElem?_eq_some.mp hcmd
  have hi2 : i < docs.length := by
    rw [hdl]
    exact hi
  refine ⟨docs.get ⟨i, hi2⟩, ?_⟩
  rw [hinvs, List.getElem?_map]
  have hz : (s.pendingCommands.zip docs)[i]?
      = some (({ fn := fn, args := [JsValue.arr args] }
          : ProcessingQueueCommand), docs.get ⟨i, hi2⟩) := by
    apply List.getElem?_zip_eq_some.mpr
    exact ⟨hcmd, List.getElem?_eq_getElem hi2⟩
  rw [hz]
  rfl

/-- C1 (witness): concrete drain of a single command queued via
queueTransform with one argument. -/
theorem queueTransform_drain_invocation_witness :
    (queueTransform (queueTransform baseTransformer noopFn [JsValue.str "a1"])
        noopFn [JsValue.str "a1"]).pendingCommands
        = (queueTransform baseTransformer noopFn
            [JsValue.str "a1"]).pendingCommands
          ++ [{ fn := noopFn, args := [JsValue.arr [JsValue.str "a1"]] }] ∧
    ∃ d : GltfDocument,
      (invocationsOf traceC1)[0]?
        = some (noopFn, [CallArg.context { document := d, transformer := () },
            CallArg.value (JsValue.arr [JsValue.str "a1"])]) :=
  queueTransform_drain_invocation
    (queueTransform baseTransformer noopFn [JsValue.str "a1"])
    noopFn [JsValue.str "a1"] traceC1 baseTransformer 0 rfl rfl

/-- C2: draining snapshots the pending commands and clears the queue
before executing anything; the invocations of the drain are exactly one
per snapshot command, in snapshot (FIFO) order — all of them when no
command throws — and the queue afterwards holds exactly the commands
enqueued during the drain, so a command enqueued by a running command is
not executed in the current drain and waits for a later one. -/
theorem processQueue_fifo_snapshot (s : DuMeshTransformer)
    (ev : List QueueEvent) (s1 : DuMeshTransformer) (r : Option String)
    (hrun : processQueue s = (ev, s1, r)) :
    processQueue s
        = runCommandList s.pendingCommands { s with pendingCommands := [] } ∧
    s1.pendingCommands = enqueuedOf ev ∧
    ∃ docs : List GltfDocument,
      docs.length ≤ s.pendingCommands.length ∧
      (r = none → docs.length = s.pendingCommands.length) ∧
      invocationsOf ev
        = ((s.pendingCommands.take docs.length).zip docs).map
            (fun p => invocationFor p.1 p.2) := by
  have hrun' : runCommandList s.pendingCommands { s with pendingCommands := [] }
      = (ev, s1, r) := hrun
  obtain ⟨hp, docs, hlen, hfull, hinvs⟩ :=
    runCommandList_spec s.pendingCommands { s with pendingCommands := [] }
  rw [hrun'] at hp hfull hinvs
  dsimp only at hp hfull hinvs
  refine ⟨rfl, ?_, docs, hlen, hfull, hinvs⟩
  rw [hp]
  rfl

/-- C2 (witness): draining one command that enqueues another executes only
the snapshot command and leaves exactly the nested enqueue pending. -/
theorem processQueue_fifo_snapshot_witness :
    processQueue sC2
        = runCommandList sC2.pendingCommands { sC2 with pendingCommands := [] } ∧
    stateC2.pendingCommands = enqueuedOf traceC2 :=
  ⟨(processQueue_fifo_snapshot sC2 traceC2 stateC2 none rfl).1,
    (processQueue_fifo_snapshot sC2 traceC2 stateC2 none rfl).2.1⟩

/-- C3: when a drained command throws, the executed invocations are a
prefix of the snapshot (no later snapshot command runs), the failure
propagates unchanged through saveToFile (nothing is written), and the
queue afterwards holds only the commands enqueued during the drain — the
failing and unexecuted snapshot commands are not retained. -/
theorem processQueue_failure_semantics (s : DuMeshTransformer)
    (ev : List QueueEvent) (s1 : DuMeshTransformer) (e : String)
    (hrun : processQueue s = (ev, s1, some e)) :
    (∀ file, saveToFile s file = (ev, s1, some e)) ∧
    s1.pendingCommands = enqueuedOf ev ∧
    ∃ docs : List GltfDocument,
      docs.length ≤ s.pendingCommands.length ∧
      invocationsOf ev
        = ((s.pendingCommands.take docs.length).zip docs).map
            (fun p => invocationFor p.1 p.2) := by
  have hrun' : runCommandList s.pendingCommands { s with pendingCommands := [] }
      = (ev, s1, some e) := hrun
  obtain ⟨hp, docs, hlen, hfull, hinvs⟩ :=
    runCommandList_spec s.pendingCommands { s with pendingCommands := [] }
  rw [hrun'] at hp hinvs
  dsimp only at hp hinvs
  refine ⟨?_, ?_, docs, hlen, hinvs⟩
  · intro file
    simp only [saveToFile, hrun]
  · rw [hp]
    rfl

/-- C3 (witness): a throwing command followed by a no-op; the save
propagates the failure, the no-op is never invoked, and the queue is left
empty. -/
theorem processQueue_failure_semantics_witness :
    saveToFile sC3 "wreck.glb" = (traceC3, baseTransformer, some "boom") ∧
    baseTransformer.pendingCommands = enqueuedOf traceC3 :=
  ⟨(processQueue_failure_semantics sC3 traceC3 baseTransformer "boom" rfl).1
      "wreck.glb",
    (processQueue_failure_semantics sC3 traceC3 baseTransformer "boom"
      rfl).2.1⟩

/-- C4: the construction-time normalization pass is idempotent — running
it a second time with the same catalog over an already-normalized document
leaves every material's display name and metadata map (the whole document)
identical. -/
theorem normalization_idempotent (defs : MaterialDefinitions)
    (doc : GltfDocument) :
    normalizeDocument defs (normalizeDocument defs doc)
      = normalizeDocument defs doc := by
  have hcomp : normalizeMaterial defs ∘ normalizeMaterial defs
      = normalizeMaterial defs :=
    funext (fun m => normalizeMaterial_idem defs m)
  show GltfDocument.mk
      ((doc.materials.map (normalizeMaterial defs)).map (normalizeMaterial defs))
      = GltfDocument.mk (doc.materials.map (normalizeMaterial defs))
  rw [List.map_map, hcomp]

/-- C5: getGameItemIdFromGltfMaterial is total and returns the item_id
extra when present and non-empty, else the display name, and the empty
string when the material has neither an item_id extra nor a non-empty
name. -/
theorem getGameItemId_total_spec (m : Material) :
    (∀ s, objGet m.extras "item_id" = some s → ¬ s = "" →
      getGameItemIdFromGltfMaterial m = s) ∧
    ((objGet m.extras "item_id" = none ∨ objGet m.extras "item_id" = some "") →
      getGameItemIdFromGltfMaterial m = m.name) ∧
    ((objGet m.extras "item_id" = none ∨ objGet m.extras "item_id" = some "") →
      m.name = "" → getGameItemIdFromGltfMaterial m = "") := by
  unfold getGameItemIdFromGltfMaterial
  refine ⟨?_, ?_, ?_⟩
  · intro s hs hne
    rw [hs]
    simp [jsStrOr, hne]
  · rintro (h | h)
    · rw [h]
      rfl
    · rw [h]
      simp [jsStrOr]
  · rintro (h | h) hn
    · rw [h]
      exact hn
    · rw [h]
      simp [jsStrOr, hn]

/-- C5 (witness): a non-empty item_id extra wins over the name. -/
theorem getGameItemId_total_spec_witness :
    getGameItemIdFromGltfMaterial ironMat = "iron" :=
  (getGameItemId_total_spec ironMat).1 "iron" (by decide) (by decide)

/-- C6: catalog lookup of an item id absent from the items map returns the
null sentinel and never throws; a present id returns its definition. -/
theorem getGameMaterial_lookup_spec (defs : MaterialDefinitions)
    (itemId : String) :
    (¬ itemId ∈ defs.items.map Prod.fst →
      getGameMaterialFromItemId defs itemId = none) ∧
    (∀ gm, objGet defs.items itemId = some gm →
      getGameMaterialFromItemId defs itemId = some gm) := by
  constructor
  · intro h
    have hn : defs.items.find? (fun kv => kv.1 = itemId) = none :=
      List.find?_eq_none.mpr (by
        intro kv hkv
        simp only [decide_eq_true_eq]
        intro heq
        exact h (List.mem_map.mpr ⟨kv, hkv, heq⟩))
    unfold getGameMaterialFromItemId objGet
    rw [hn]
    rfl
  · intro gm h
    exact h

/-- C6 (witness): a missing id yields none, a present id its
definition. -/
theorem getGameMaterial_lookup_spec_witness :
    getGameMaterialFromItemId catalogW "missing" = none ∧
    getGameMaterialFromItemId catalogW "id1" = some steelDef :=
  ⟨(getGameMaterial_lookup_spec catalogW "missing").1 (by decide),
    (getGameMaterial_lookup_spec catalogW "id1").2 steelDef (by decide)⟩

/-- C7: getGltfMaterialsWithGameMaterials returns exactly the resolvable
materials paired with their resolved definitions, in the document's native
material order, silently dropping every unresolved material. -/
theorem materials_with_game_materials_spec (defs : MaterialDefinitions)
    (doc : GltfDocument) :
    getGltfMaterialsWithGameMaterials defs doc
        = doc.materials.filterMap (fun m =>
            Option.map
              (fun gm => ({ material := m, gameMaterial := gm } : MaterialPair))
              (getGameMaterialFromGltfMaterial defs m)) ∧
    (getGltfMaterialsWithGameMaterials defs doc).map (fun p => p.material)
        = doc.materials.filter
            (fun m => (getGameMaterialFromGltfMaterial defs m).isSome) ∧
    ∀ p, p ∈ getGltfMaterialsWithGameMaterials defs doc →
      getGameMaterialFromGltfMaterial defs p.material = some p.gameMaterial := by
  have h1 : getGltfMaterialsWithGameMaterials defs doc
      = doc.materials.filterMap (fun m =>
          Option.map
            (fun gm => ({ material := m, gameMaterial := gm } : MaterialPair))
            (getGameMaterialFromGltfMaterial defs m)) :=
    pairs_filterMap defs doc.materials
  refine ⟨h1, ?_, ?_⟩
  · rw [h1]
    exact pairs_map_material defs doc.materials
  · intro p hp
    rw [h1] at hp
    obtain ⟨m, hm, hf⟩ := List.mem_filterMap.mp hp
    obtain ⟨gm, hgm, hpair⟩ := Option.map_eq_some'.mp hf
    rw [← hpair]
    exact hgm

/-- C7 (witness): the resolvable material of the two-material document is
paired with its catalog definition. -/
theorem materials_with_game_materials_spec_witness :
    getGameMaterialFromGltfMaterial catalogW steelMat = some steelDef :=
  (materials_with_game_materials_spec catalogW docW).2.2
    ⟨steelMat, steelDef⟩ (by decide)

/-- C8: construction keeps the material count and, per material: when its
item id resolves, the display name becomes the catalog title, the item_id
extra is stamped with the resolved id, and every other metadata field is
unchanged; a material whose id does not resolve is left entirely
untouched. -/
theorem construction_normalization_effects (defs : MaterialDefinitions)
    (doc : GltfDocument) :
    (constructTransformer doc defs).gltfDocument.materials.length
        = doc.materials.length ∧
    ∀ (i : Nat) (hi : i < doc.materials.length)
      (hi2 : i < (constructTransformer doc defs).gltfDocument.materials.length),
      (∀ gm, ¬ getGameItemIdFromGltfMaterial (doc.materials.get ⟨i, hi⟩) = "" →
        getGameMaterialFromItemId defs
            (getGameItemIdFromGltfMaterial (doc.materials.get ⟨i, hi⟩))
          = some gm →
        ((constructTransformer doc defs).gltfDocument.materials.get
            ⟨i, hi2⟩).name = gm.title ∧
        objGet ((constructTransformer doc defs).gltfDocument.materials.get
            ⟨i, hi2⟩).extras "item_id"
          = some (getGameItemIdFromGltfMaterial (doc.materials.get ⟨i, hi⟩)) ∧
        ∀ k, ¬ k = "item_id" →
          objGet ((constructTransformer doc defs).gltfDocument.materials.get
              ⟨i, hi2⟩).extras k
            = objGet (doc.materials.get ⟨i, hi⟩).extras k) ∧
      ((getGameItemIdFromGltfMaterial (doc.materials.get ⟨i, hi⟩) = "" ∨
        getGameMaterialFromItemId defs
            (getGameItemIdFromGltfMaterial (doc.materials.get ⟨i, hi⟩))
          = none) →
        (constructTransformer doc defs).gltfDocument.materials.get ⟨i, hi2⟩
          = doc.materials.get ⟨i, hi⟩) := by
  constructor
  · show (doc.materials.map (normalizeMaterial defs)).length
      = doc.materials.length
    exact List.length_map doc.materials (normalizeMaterial defs)
  · intro i hi hi2
    have hget : (constructTransformer doc defs).gltfDocument.materials.get
        ⟨i, hi2⟩ = normalizeMaterial defs (doc.materials.get ⟨i, hi⟩) := by
      show (doc.materials.map (normalizeMaterial defs)).get ⟨i, hi2⟩
        = normalizeMaterial defs (doc.materials.get ⟨i, hi⟩)
      rw [List.get_eq_getElem, List.getElem_map]
      rfl
    constructor
    · intro gm h1 h2
      rw [hget]
      exact normalizeMaterial_resolved_effects defs
        (doc.materials.get ⟨i, hi⟩) gm h1 h2
    · intro h
      rw [hget]
      exact normalizeMaterial_unresolved defs (doc.materials.get ⟨i, hi⟩) h

/-- C8 (witness): the end-to-end two-material example — the resolvable
material is renamed to Steel Plate, keeps its other extras and carries the
resolved id; the unresolvable material is untouched. -/
theorem construction_normalization_effects_witness :
    ((constructTransformer docW catalogW).gltfDocument.materials.get
        ⟨0, by decide⟩).name = "Steel Plate" ∧
    objGet ((constructTransformer docW catalogW).gltfDocument.materials.get
        ⟨0, by decide⟩).extras "item_id" = some "id1" ∧
    objGet ((constructTransformer docW catalogW).gltfDocument.materials.get
        ⟨0, by decide⟩).extras "roughness" = some "0.5" ∧
    (constructTransformer docW catalogW).gltfDocument.materials.get
        ⟨1, by decide⟩ = unknownMat := by
  have h := (construction_normalization_effects catalogW docW).2
  have h0 := (h 0 (by decide) (by decide)).1 steelDef (by decide) (by decide)
  have h1 := (h 1 (by decide) (by decide)).2 (Or.inr (by decide))
  exact ⟨h0.1, h0.2.1, h0.2.2 "roughness" (by decide), h1⟩

/-- C9: setting an installation directory whose Game/data subpath is
missing fails with an error and leaves the state (including any previously
configured directory) unchanged; when the subpath exists the directory is
stored and the instance is returned. -/
theorem setGameInstallationDirectory_spec (fe : String → Bool)
    (s : DuMeshTransformer) (directory : String) :
    (fe (pathJoin (pathJoin directory "Game") "data") = false →
      setGameInstallationDirectory fe s directory
        = (s, some ("Invalid game directory: " ++ directory))) ∧
    (fe (pathJoin (pathJoin directory "Game") "data") = true →
      setGameInstallationDirectory fe s directory
        = ({ s with gameInstallationPath := some directory }, none)) := by
  constructor
  · intro h
    simp [setGameInstallationDirectory, h]
  · intro h
    simp [setGameInstallationDirectory, h]

/-- C9 (witness): a directory without the subpath is rejected keeping the
state; a directory with it is stored. -/
theorem setGameInstallationDirectory_spec_witness :
    setGameInstallationDirectory fsW baseTransformer "bad"
        = (baseTransformer, some ("Invalid game directory: " ++ "bad")) ∧
    setGameInstallationDirectory fsW baseTransformer "C:/DU"
        = (sInstall, none) :=
  ⟨(setGameInstallationDirectory_spec fsW baseTransformer "bad").1 (by decide),
    (setGameInstallationDirectory_spec fsW baseTransformer "C:/DU").2
      (by decide)⟩

/-- C10: getDataDirectory returns null exactly when no installation
directory is set (in the sense of isGameInstallationDirectorySet), and
otherwise the configured path joined with Game/data; it is a pure total
function of the state. -/
theorem getDataDirectory_spec (s : DuMeshTransformer) :
    (getDataDirectory s = none ↔ isGameInstallationDirectorySet s = false) ∧
    (∀ p, s.gameInstallationPath = some p →
      isGameInstallationDirectorySet s = true →
      getDataDirectory s = some (pathJoin (pathJoin p "Game") "data")) := by
  constructor
  · cases hb : isGameInstallationDirectorySet s with
    | true => simp [getDataDirectory, hb]
    | false => simp [getDataDirectory, hb]
  · intro p hp ht
    simp [getDataDirectory, ht, hp]

/-- C10 (witness): a configured directory yields its data directory. -/
theorem getDataDirectory_spec_witness :
    getDataDirectory sInstall
      = some (pathJoin (pathJoin "C:/DU" "Game") "data") :=
  (getDataDirectory_spec sInstall).2 "C:/DU" rfl (by decide)

end DuGltf
